import Mathlib

/-!
Verification of the output transport frame dispatcher
(`src/pipecat/transports/base_output.py`, class `BaseOutputTransport`).

The Python code is shallowly embedded: payload bytes are `List Nat`,
frames are a tagged variant, the stateful components (sink thread, push
task, lifecycle flags) are explicit state records with step functions, and
concurrent executions are modelled as traces of events folded over the
step function.  Collaborator writes (`write_raw_audio_frames`,
`write_frame_to_camera`, `send_message`, `send_metrics`, downstream
`push_frame`) are recorded as observable outputs instead of performing
I/O.
-/

/-- `TransportParams` (read-only configuration, from
`pipecat.transports.base_transport`).  Only the fields read by
`BaseOutputTransport` are modelled. -/
structure TransportParams where
  audio_out_enabled : Bool
  audio_out_sample_rate : Nat
  audio_out_channels : Nat
  camera_out_enabled : Bool
  camera_out_is_live : Bool
  camera_out_width : Nat
  camera_out_height : Nat
  camera_out_framerate : Nat
deriving DecidableEq, Repr

/-- `self._audio_chunk_size = int(self._params.audio_out_sample_rate / 100) *
self._params.audio_out_channels * 2` (constructor, lines 65-66). -/
def audio_chunk_size (p : TransportParams) : Nat :=
  (p.audio_out_sample_rate / 100) * p.audio_out_channels * 2

/-- `AudioRawFrame(audio, sample_rate, num_channels)`; the payload bytes are
modelled as a `List Nat`. -/
structure AudioRawFrame where
  audio : List Nat
  sample_rate : Nat
  num_channels : Nat
deriving DecidableEq, Repr

/-- `ImageRawFrame(image, size, format)`.  PIL sets `Image.format` only
for images read from a file; an in-memory image (e.g. built with
`frombytes` or returned by `resize`) has `format = None`, so the field
is modelled as an `Option`. -/
structure ImageRawFrame where
  image : List Nat
  size : Nat × Nat
  format : Option String
deriving DecidableEq, Repr

/-- The frame kinds dispatched by `BaseOutputTransport.process_frame`.
`system` stands for any other `SystemFrame` subclass, and `text` for any
other data frame (e.g. `TextFrame`), which reaches the final `else`
branches. -/
inductive Frame where
  | start
  | cancel
  | endFrame
  | startInterruption
  | stopInterruption
  | system (payload : Nat)
  | audio (frame : AudioRawFrame)
  | image (frame : ImageRawFrame)
  | sprite (images : List ImageRawFrame)
  | transportMessage (message : String)
  | metrics (payload : Nat)
  | text (payload : String)
deriving DecidableEq, Repr

/-- `isinstance(frame, EndFrame)`. -/
def isEnd : Frame → Bool
  | .endFrame => true
  | _ => false

/-- The slicing loop of `_handle_audio` (lines 164-167):
`for i in range(0, len(audio), chunk_size): audio[i : i + chunk_size]`.
`fuel` bounds the number of chunks; `chunkBytes` below always calls it
with `fuel = l.length`, which is enough whenever `0 < C` because every
emitted chunk consumes at least one byte.  (For `C = 0` the Python `range`
raises `ValueError`; all theorems below assume `0 < C`.) -/
def chunkGo (C : Nat) : Nat → List Nat → List (List Nat)
  | _, [] => []
  | 0, _ => []
  | fuel + 1, a :: l => ((a :: l).take C) :: chunkGo C fuel ((a :: l).drop C)

/-- Split a payload into consecutive `C`-byte chunks, the final remainder
kept as a shorter chunk (`_handle_audio`, lines 164-167). -/
def chunkBytes (C : Nat) (l : List Nat) : List (List Nat) :=
  chunkGo C l.length l

/-- `_handle_audio` (lines 162-167): each chunk becomes a fresh
`AudioRawFrame` with the original `sample_rate` and `num_channels`; the
returned list is what gets `put_nowait`-ed to the sink queue, in order. -/
def handle_audio (p : TransportParams) (f : AudioRawFrame) : List AudioRawFrame :=
  (chunkBytes (audio_chunk_size p) f.audio).map
    (fun c => { audio := c, sample_rate := f.sample_rate, num_channels := f.num_channels })

/-- `_maybe_send_audio` (lines 281-289).  `writeOk` models whether the
collaborator `write_raw_audio_frames` raises (the in-repo implementation
is `pass` and never raises; subclasses may).  Returns the new buffer, the
list of chunks actually written (at most one — the source has an `if`,
not a loop), and whether the `except` branch logged an error.  When the
write raises, the assignment `buffer = buffer[chunk_size:]` is skipped,
so the original buffer is returned unchanged. -/
def maybe_send_audio (C : Nat) (writeOk : Bool) (buffer : List Nat) :
    List Nat × List (List Nat) × Bool :=
  if C ≤ buffer.length then
    if writeOk then (buffer.drop C, [buffer.take C], false)
    else (buffer, [], true)
  else (buffer, [], false)

/-- The observable result of the sink thread handling one dequeued frame
(`_sink_thread_handler`, lines 174-199): the new accumulation buffer and
every collaborator interaction performed for this item. -/
structure SinkStep where
  buffer : List Nat
  audioWrites : List (List Nat)
  writeErrorLogged : Bool
  cameraLiveEnqueued : List ImageRawFrame
  cameraCycleSet : Option (List ImageRawFrame)
  messagesSent : List String
  metricsSent : List Nat
  pushedDownstream : List Frame
  stopRequested : Bool
deriving DecidableEq, Repr

/-- One iteration body of `_sink_thread_handler` (lines 174-199) for a
dequeued `frame`.  When `interrupted` the whole `elif` chain is skipped
and the buffer is reset (`buffer = bytearray()`); the `EndFrame` check
(line 195) runs afterwards in either case, so `stopRequested` is set for
an `EndFrame` regardless of the interrupted flag. -/
def sink_process (p : TransportParams) (interrupted writeOk : Bool)
    (buffer : List Nat) (f : Frame) : SinkStep :=
  let base : SinkStep :=
    { buffer := buffer, audioWrites := [], writeErrorLogged := false,
      cameraLiveEnqueued := [], cameraCycleSet := none, messagesSent := [],
      metricsSent := [], pushedDownstream := [], stopRequested := isEnd f }
  if interrupted then
    { base with buffer := [] }
  else
    match f with
    | .audio a =>
        if p.audio_out_enabled then
          let r := maybe_send_audio (audio_chunk_size p) writeOk (buffer ++ a.audio)
          { base with buffer := r.1, audioWrites := r.2.1, writeErrorLogged := r.2.2 }
        else { base with pushedDownstream := [.audio a] }
    | .image i =>
        if p.camera_out_enabled then
          if p.camera_out_is_live then { base with cameraLiveEnqueued := [i] }
          else { base with cameraCycleSet := some [i] }
        else { base with pushedDownstream := [.image i] }
    | .sprite imgs =>
        if p.camera_out_enabled then { base with cameraCycleSet := some imgs }
        else { base with pushedDownstream := [.sprite imgs] }
    | .transportMessage m => { base with messagesSent := [m] }
    | .metrics m => { base with metricsSent := [m] }
    | f' => { base with pushedDownstream := [f'] }

/-- Result of `_draw_image` (lines 235-245): the frame handed to
`write_frame_to_camera`, how many resizes were performed and whether the
size-mismatch warning was logged. -/
structure DrawResult where
  written : ImageRawFrame
  resizeCount : Nat
  warned : Bool
deriving DecidableEq, Repr

/-- `_draw_image` (lines 235-245).  `pilResize` abstracts
`Image.frombytes(...).resize(desired_size).tobytes()`.  The PIL `resize`
contract is that the resized image has exactly the requested `size`;
its `format` attribute is `None` (PIL sets `format` only when reading
from a file, never for `frombytes`/`resize` results), so the frame
constructed on line 243 from `resized_image.format` carries `none`. -/
def draw_image (p : TransportParams)
    (pilResize : ImageRawFrame → Nat × Nat → List Nat)
    (frame : ImageRawFrame) : DrawResult :=
  let desired := (p.camera_out_width, p.camera_out_height)
  if frame.size ≠ desired then
    { written := { image := pilResize frame desired, size := desired, format := none },
      resizeCount := 1, warned := true }
  else
    { written := frame, resizeCount := 0, warned := false }

/-- What the sink worker (the loop of `_sink_thread_handler`) is doing:
about to poll the queue (`idle`), holding a dequeued frame it has not
yet processed (`processing f` — between `get` on line 174 and the body),
or returned from the handler (`exited`). -/
inductive SinkPhase where
  | idle
  | processing (f : Frame)
  | exited
deriving DecidableEq, Repr

/-- The interleaved state of a `BaseOutputTransport`: the lifecycle flags
(`_running`, `_stopped_event`, `_is_interrupted`), the sink queue and the
sink worker position and local accumulation buffer, the progress of a
`process_frame(Cancel/End)` call through its wait on `_stopped_event`
(`cancelPhase`: 0 = no terminal frame yet, 1 = blocked on
`_stopped_event.wait()`, 2 = returned), and the observable collaborator
interactions accumulated so far.  `pushed` records the direct
`push_frame` calls made by `process_frame` itself; `sinkPushed` records
frames the sink worker forwarded downstream via `_internal_push_frame`. -/
structure SysState where
  running : Bool
  stopped_event : Bool
  is_interrupted : Bool
  sink_queue : List Frame
  sinkPhase : SinkPhase
  cancelPhase : Nat
  buffer : List Nat
  audioWrites : List (List Nat)
  sinkPushed : List Frame
  pushed : List Frame
  cameraCycle : Option (List ImageRawFrame)
  cameraLiveQueue : List ImageRawFrame
deriving DecidableEq, Repr

/-- State after `__init__`: not running, no worker thread, empty queues,
events clear. -/
def initState : SysState :=
  { running := false, stopped_event := false, is_interrupted := false,
    sink_queue := [], sinkPhase := .exited, cancelPhase := 0, buffer := [],
    audioWrites := [], sinkPushed := [], pushed := [],
    cameraCycle := none, cameraLiveQueue := [] }

/-- `stop` (lines 87-94): a no-op unless `_running`; otherwise clears
`_running` and sets `_stopped_event` — note the event is set immediately,
not after the worker threads exit. -/
def stopT (s : SysState) : SysState :=
  if s.running then { s with running := false, stopped_event := true } else s

/-- `process_frame` (lines 120-149) for one incoming frame, with
`allowed` standing for `self.interruptions_allowed`.  `start` spawns a
fresh sink worker (fresh local buffer); `Cancel` runs `stop`, pushes the
frame and then blocks on `_stopped_event` (`cancelPhase := 1`); audio is
chunked into the sink queue; `EndFrame` and the remaining data frames are
enqueued unchanged, `EndFrame` additionally blocking the caller.
`StartInterruption` also rotates the push task; that aspect is modelled
separately by `pushStep` below. -/
def procFrameStep (p : TransportParams) (allowed : Bool) (s : SysState) :
    Frame → SysState
  | .start =>
      let s1 := if s.running then s
        else { s with running := true, sinkPhase := .idle, buffer := [] }
      { s1 with pushed := s1.pushed ++ [.start] }
  | .cancel =>
      let s1 := stopT s
      { s1 with pushed := s1.pushed ++ [.cancel], cancelPhase := 1 }
  | .startInterruption =>
      let s1 := if allowed then { s with is_interrupted := true } else s
      { s1 with pushed := s1.pushed ++ [.startInterruption] }
  | .stopInterruption =>
      let s1 := if allowed then { s with is_interrupted := false } else s
      { s1 with pushed := s1.pushed ++ [.stopInterruption] }
  | .system n => { s with pushed := s.pushed ++ [.system n] }
  | .audio a =>
      { s with sink_queue := s.sink_queue ++ (handle_audio p a).map Frame.audio }
  | .endFrame => { s with sink_queue := s.sink_queue ++ [.endFrame], cancelPhase := 1 }
  | f => { s with sink_queue := s.sink_queue ++ [f] }

/-- Interleaving events: a `process_frame` call from the pipeline task
(only possible while no terminal frame has the caller blocked), the sink
worker, in two phases (poll/dequeue, then process the held item — `writeOk`
says whether the audio write collaborator raises), and the blocked
caller observing `_stopped_event`. -/
inductive Ev where
  | procFrame (f : Frame)
  | sinkDequeue
  | sinkDo (writeOk : Bool)
  | awaitStopped
deriving DecidableEq, Repr

/-- One interleaving step of the whole transport. -/
def sysStep (p : TransportParams) (allowed : Bool) (s : SysState) : Ev → SysState
  | .procFrame f => if s.cancelPhase = 0 then procFrameStep p allowed s f else s
  | .sinkDequeue =>
      match s.sinkPhase with
      | .idle =>
          if s.running then
            match s.sink_queue with
            | [] => s
            | f :: rest => { s with sinkPhase := .processing f, sink_queue := rest }
          else { s with sinkPhase := .exited }
      | _ => s
  | .sinkDo writeOk =>
      match s.sinkPhase with
      | .processing f =>
          let r := sink_process p s.is_interrupted writeOk s.buffer f
          let s1 := { s with
            buffer := r.buffer,
            audioWrites := s.audioWrites ++ r.audioWrites,
            sinkPushed := s.sinkPushed ++ r.pushedDownstream,
            cameraLiveQueue := s.cameraLiveQueue ++ r.cameraLiveEnqueued,
            cameraCycle := (match r.cameraCycleSet with
              | some l => some l
              | none => s.cameraCycle),
            sinkPhase := .idle }
          if r.stopRequested then stopT s1 else s1
      | _ => s
  | .awaitStopped =>
      if s.cancelPhase = 1 ∧ s.stopped_event then { s with cancelPhase := 2 } else s

/-- Run a trace of interleaving events. -/
def sysRun (p : TransportParams) (allowed : Bool) (s : SysState) (evs : List Ev) :
    SysState :=
  evs.foldl (sysStep p allowed) s

/-- The push sequencer (`_create_push_task`, `_internal_push_frame`,
`_push_frame_task_handler`, `_handle_interruptions`, lines 151-226),
modelled with identity tracking: enqueued (frame, direction) items get
consecutive ids (`nextId`); `queue` is the current `_push_queue` (FIFO,
head next to be delivered) and `emitted` the sequence of items actually
handed to `push_frame` by the task, in order. -/
structure PushState where
  queue : List Nat
  emitted : List Nat
  nextId : Nat
  interrupted : Bool
deriving DecidableEq, Repr

/-- Push-side events: a producer enqueues an item
(`_internal_push_frame`), the push task delivers the head item
(`_push_frame_task_handler` loop body), or an interruption frame is
handled (`_handle_interruptions`). -/
inductive PushEv where
  | enqueue
  | deliver
  | startInt
  | stopInt
deriving DecidableEq, Repr

/-- `_handle_interruptions` with `allowed = self.interruptions_allowed`:
on `StartInterruptionFrame`, if allowed, set `_is_interrupted`, cancel the
push task and bind a brand-new empty `_push_queue` (`_create_push_task`) —
the pending items are abandoned; on `StopInterruptionFrame` clear the
flag.  `deliver` is one iteration of `_push_frame_task_handler`. -/
def pushStep (allowed : Bool) (s : PushState) : PushEv → PushState
  | .enqueue => { s with queue := s.queue ++ [s.nextId], nextId := s.nextId + 1 }
  | .deliver =>
      match s.queue with
      | [] => s
      | i :: rest => { s with queue := rest, emitted := s.emitted ++ [i] }
  | .startInt => if allowed then { s with queue := [], interrupted := true } else s
  | .stopInt => if allowed then { s with interrupted := false } else s

/-- Run a trace of push-side events. -/
def pushRun (allowed : Bool) (s : PushState) (evs : List PushEv) : PushState :=
  evs.foldl (pushStep allowed) s

/-- Push state right after `_create_push_task` in the constructor. -/
def pushInit : PushState :=
  { queue := [], emitted := [], nextId := 0, interrupted := false }

/-- Well-formedness of a push state: all ids in flight were allocated
(`< nextId`) and pending items have not been delivered. -/
def pushInv (s : PushState) : Prop :=
  (∀ j ∈ s.queue, j < s.nextId) ∧ (∀ j ∈ s.emitted, j < s.nextId) ∧
  (∀ j ∈ s.queue, j ∉ s.emitted)

/-- Invariant tying the accumulation buffer, the sink queue and the
in-flight item together: the buffer holds less than one chunk, and every
audio frame sitting in (or dequeued from) the sink queue was produced by
the chunker, hence carries at most `audio_chunk_size p` bytes. -/
def sinkInv (p : TransportParams) (s : SysState) : Prop :=
  s.buffer.length < audio_chunk_size p ∧
  (∀ a : AudioRawFrame, Frame.audio a ∈ s.sink_queue →
    a.audio.length ≤ audio_chunk_size p) ∧
  (∀ a : AudioRawFrame, s.sinkPhase = .processing (Frame.audio a) →
    a.audio.length ≤ audio_chunk_size p)

/-- Example configuration: audio out enabled at 100 Hz mono (so
`audio_chunk_size` is 2 bytes), camera out disabled, 2x2 output size. -/
def exampleParams : TransportParams :=
  { audio_out_enabled := true, audio_out_sample_rate := 100,
    audio_out_channels := 1, camera_out_enabled := false,
    camera_out_is_live := false, camera_out_width := 2,
    camera_out_height := 2, camera_out_framerate := 30 }

/-- Example push state with two pending undelivered items. -/
def pushEx : PushState :=
  { queue := [0, 1], emitted := [], nextId := 2, interrupted := false }

/-- Example trace: start, 2 bytes of audio, the sink dequeues the chunk,
then a `CancelFrame` arrives and the blocked `process_frame` call wakes
up on `_stopped_event` — all before the sink worker processes the chunk
it already holds. -/
def c5trace : List Ev :=
  [.procFrame .start,
   .procFrame (.audio { audio := [7, 7], sample_rate := 100, num_channels := 1 }),
   .sinkDequeue,
   .procFrame .cancel,
   .awaitStopped]

/-- Concrete audio frame used by witnesses: 3 payload bytes. -/
def exAudio : AudioRawFrame := { audio := [1, 2, 3], sample_rate := 100, num_channels := 1 }

/-- An upper bound on future audio writes: the writes so far plus one
for an item currently held by the sink worker. -/
def sinkPot (s : SysState) : Nat :=
  s.audioWrites.length +
    (match s.sinkPhase with
     | .processing _ => 1
     | _ => 0)

/-- Lifecycle well-formedness, true in every reachable state: the
stopped event implies the transport is no longer running and a terminal
frame has the caller blocked, `process_frame(Cancel/End)` can only have
returned after the event was set, and an `EndFrame` is in flight on the
sink side only when a terminal `process_frame` call is blocked. -/
def lifecycleInv (s : SysState) : Prop :=
  (s.stopped_event = true → s.running = false) ∧
  (s.stopped_event = true → 1 ≤ s.cancelPhase) ∧
  (s.cancelPhase = 2 → s.stopped_event = true) ∧
  (Frame.endFrame ∈ s.sink_queue → 1 ≤ s.cancelPhase) ∧
  (s.sinkPhase = .processing Frame.endFrame → 1 ≤ s.cancelPhase)

/-- Arbitrary data frame used by witnesses. -/
def exFrame : Frame := Frame.text ("x")

/-- Example state whose sink worker holds a dequeued item. -/
def c6state : SysState := { initState with sinkPhase := .processing exFrame }

/-- Auxiliary: mapping commutes with `dropLast`. -/
theorem map_dropLast {α β : Type} (f : α → β) :
    ∀ l : List α, (l.map f).dropLast = l.dropLast.map f := by
  intro l
  induction l with
  | nil => rfl
  | cons a t ih =>
      cases t with
      | nil => rfl
      | cons b t' => simpa using ih

/-- The chunker reassembles: concatenating the chunks gives back the
payload. -/
theorem chunkGo_join (C : Nat) (hC : 0 < C) :
    ∀ (fuel : Nat) (l : List Nat), l.length ≤ fuel →
      (chunkGo C fuel l).flatten = l := by
  intro fuel
  induction fuel with
  | zero =>
      intro l hl
      have : l = [] := List.length_eq_zero.mp (Nat.le_zero.mp hl)
      subst this
      rfl
  | succ n ih =>
      intro l hl
      cases l with
      | nil => rfl
      | cons a t =>
          have hrec : ((a :: t).drop C).length ≤ n := by
            rw [List.length_drop]
            simp only [List.length_cons] at hl ⊢
            omega
          simp only [chunkGo, List.flatten_cons, ih _ hrec]
          exact List.take_append_drop C (a :: t)

/-- Each chunk is nonempty and holds at most `C` bytes. -/
theorem chunkGo_mem (C : Nat) (hC : 0 < C) :
    ∀ (fuel : Nat) (l : List Nat) (c : List Nat), l.length ≤ fuel →
      c ∈ chunkGo C fuel l → c.length ≤ C ∧ c ≠ [] := by
  intro fuel
  induction fuel with
  | zero =>
      intro l c hl hc
      have : l = [] := List.length_eq_zero.mp (Nat.le_zero.mp hl)
      subst this
      simp [chunkGo] at hc
  | succ n ih =>
      intro l c hl hc
      cases l with
      | nil => simp [chunkGo] at hc
      | cons a t =>
          simp only [chunkGo, List.mem_cons] at hc
          rcases hc with rfl | hc
          · constructor
            · simpa using List.length_take_le C (a :: t)
            · have : (List.take C (a :: t)).length = min C (t.length + 1) := by
                simp [List.length_take]
              intro hnil
              rw [hnil] at this
              simp at this
              omega
          · have hrec : ((a :: t).drop C).length ≤ n := by
              simp only [List.length_drop, List.length_cons] at *
              omega
            exact ih _ _ hrec hc

/-- The chunker never returns an empty chunk list for a nonempty payload. -/
theorem chunkGo_ne_nil (C : Nat) :
    ∀ (fuel : Nat) (a : Nat) (t : List Nat), (a :: t).length ≤ fuel →
      chunkGo C fuel (a :: t) ≠ [] := by
  intro fuel a t hl
  cases fuel with
  | zero => simp at hl
  | succ n => simp [chunkGo]

/-- Ceiling-division step: for a nonempty payload, the chunk count is one
more than the chunk count of the payload minus one chunk. -/
theorem ceil_div_step (C L : Nat) (hC : 0 < C) (hL : 0 < L) :
    (L + C - 1) / C = (L - C + C - 1) / C + 1 := by
  rcases Nat.le_total L C with h | h
  · have h1 : L - C = 0 := Nat.sub_eq_zero_of_le h
    rw [h1]
    have h2 : (0 + C - 1) / C = 0 := by
      apply Nat.div_eq_of_lt
      omega
    rw [h2]
    have hlo : 1 * C ≤ L + C - 1 := by omega
    have hhi : L + C - 1 < 2 * C := by omega
    have hle : 1 ≤ (L + C - 1) / C := (Nat.le_div_iff_mul_le hC).mpr hlo
    have hlt : (L + C - 1) / C < 2 := (Nat.div_lt_iff_lt_mul hC).mpr hhi
    omega
  · have heq : L + C - 1 = (L - C + C - 1) + C := by omega
    rw [heq, Nat.add_div_right _ hC]

/-- The chunker emits exactly `⌈L / C⌉` chunks. -/
theorem chunkGo_length (C : Nat) (hC : 0 < C) :
    ∀ (fuel : Nat) (l : List Nat), l.length ≤ fuel →
      (chunkGo C fuel l).length = (l.length + C - 1) / C := by
  intro fuel
  induction fuel with
  | zero =>
      intro l hl
      have hnil : l = [] := List.length_eq_zero.mp (Nat.le_zero.mp hl)
      subst hnil
      have h0 : (C - 1) / C = 0 := Nat.div_eq_of_lt (by omega)
      simp [chunkGo, h0]
  | succ n ih =>
      intro l hl
      cases l with
      | nil =>
          have h0 : (C - 1) / C = 0 := Nat.div_eq_of_lt (by omega)
          simp [chunkGo, h0]
      | cons a t =>
          have hrec : ((a :: t).drop C).length ≤ n := by
            simp only [List.length_drop, List.length_cons] at *
            omega
          simp only [chunkGo, List.length_cons, ih _ hrec, List.length_drop]
          have hL : 0 < (a :: t).length := by simp
          have := ceil_div_step C (a :: t).length hC hL
          simp only [List.length_cons] at this
          omega

/-- Every chunk except possibly the last holds exactly `C` bytes. -/
theorem chunkGo_dropLast (C : Nat) (hC : 0 < C) :
    ∀ (fuel : Nat) (l : List Nat) (c : List Nat), l.length ≤ fuel →
      c ∈ (chunkGo C fuel l).dropLast → c.length = C := by
  intro fuel
  induction fuel with
  | zero =>
      intro l c hl hc
      have : l = [] := List.length_eq_zero.mp (Nat.le_zero.mp hl)
      subst this
      simp [chunkGo] at hc
  | succ n ih =>
      intro l c hl hc
      cases l with
      | nil => simp [chunkGo] at hc
      | cons a t =>
          simp only [chunkGo] at hc
          by_cases hrest : (a :: t).drop C = []
          · rw [hrest] at hc
            simp [chunkGo] at hc
          · obtain ⟨b, t', hbt⟩ := List.exists_cons_of_ne_nil hrest
            have hlen : ((a :: t).drop C).length ≤ n := by
              simp only [List.length_drop, List.length_cons] at *
              omega
            have hne : chunkGo C n ((a :: t).drop C) ≠ [] := by
              rw [hbt]
              apply chunkGo_ne_nil
              rw [← hbt]
              exact hlen
            rw [List.dropLast_cons_of_ne_nil hne, List.mem_cons] at hc
            rcases hc with rfl | hc
            · have hCle : C ≤ t.length + 1 := by
                by_contra hlt
                push_neg at hlt
                apply hrest
                apply List.drop_eq_nil_of_le
                simp only [List.length_cons]
                omega
              simp only [List.length_take, List.length_cons]
              omega
            · exact ih _ _ hlen hc

/-- `chunkBytes` reassembles the payload. -/
theorem chunkBytes_join (C : Nat) (hC : 0 < C) (l : List Nat) :
    (chunkBytes C l).flatten = l :=
  chunkGo_join C hC l.length l (Nat.le_refl _)

/-- `chunkBytes` emits exactly `⌈L / C⌉` chunks. -/
theorem chunkBytes_length (C : Nat) (hC : 0 < C) (l : List Nat) :
    (chunkBytes C l).length = (l.length + C - 1) / C :=
  chunkGo_length C hC l.length l (Nat.le_refl _)

/-- `chunkBytes` chunks are nonempty and at most `C` bytes. -/
theorem chunkBytes_mem (C : Nat) (hC : 0 < C) (l c : List Nat)
    (hc : c ∈ chunkBytes C l) : c.length ≤ C ∧ c ≠ [] :=
  chunkGo_mem C hC l.length l c (Nat.le_refl _) hc

/-- All `chunkBytes` chunks but possibly the last are exactly `C` bytes. -/
theorem chunkBytes_dropLast (C : Nat) (hC : 0 < C) (l c : List Nat)
    (hc : c ∈ (chunkBytes C l).dropLast) : c.length = C :=
  chunkGo_dropLast C hC l.length l c (Nat.le_refl _) hc

/-- The chunk lengths sum to the payload length. -/
theorem chunkBytes_sum (C : Nat) (hC : 0 < C) (l : List Nat) :
    ((chunkBytes C l).map List.length).sum = l.length := by
  rw [← List.length_flatten, chunkBytes_join C hC l]

/-- Every frame produced by the chunker carries at most one chunk of
audio (used for the sink-buffer invariant). -/
theorem handle_audio_mem_length (p : TransportParams)
    (hC : 0 < audio_chunk_size p) (f : AudioRawFrame) (a : AudioRawFrame)
    (ha : a ∈ handle_audio p f) : a.audio.length ≤ audio_chunk_size p := by
  rw [handle_audio] at ha
  obtain ⟨c, hc, rfl⟩ := List.mem_map.mp ha
  exact (chunkBytes_mem _ hC _ _ hc).1

/-- C2: for an audio frame with payload length `L` and configured chunk
size `C = audio_chunk_size p`, `_handle_audio` enqueues exactly
`⌈L / C⌉` chunks to the sink queue in order; all but possibly the last
are exactly `C` bytes, lengths sum to `L`, concatenation reproduces the
payload, and every chunk keeps the original sample rate and channel
count. -/
theorem C2_chunking_exact (p : TransportParams) (f : AudioRawFrame)
    (allowed : Bool) (s : SysState)
    (hC : 0 < audio_chunk_size p) (hs : s.cancelPhase = 0) :
    (handle_audio p f).length
      = (f.audio.length + audio_chunk_size p - 1) / audio_chunk_size p ∧
    (∀ c ∈ (handle_audio p f).dropLast, c.audio.length = audio_chunk_size p) ∧
    ((handle_audio p f).map (fun c => c.audio.length)).sum = f.audio.length ∧
    ((handle_audio p f).map (fun c => c.audio)).flatten = f.audio ∧
    (∀ c ∈ handle_audio p f,
      c.sample_rate = f.sample_rate ∧ c.num_channels = f.num_channels) ∧
    (sysStep p allowed s (.procFrame (.audio f))).sink_queue
      = s.sink_queue ++ (handle_audio p f).map Frame.audio := by
  refine ⟨?_, ?_, ?_, ?_, ?_, ?_⟩
  · rw [handle_audio, List.length_map]
    exact chunkBytes_length _ hC _
  · intro c hc
    rw [handle_audio, map_dropLast] at hc
    obtain ⟨c', hc', rfl⟩ := List.mem_map.mp hc
    exact chunkBytes_dropLast _ hC _ _ hc'
  · rw [handle_audio, List.map_map]
    exact chunkBytes_sum _ hC _
  · rw [handle_audio, List.map_map]
    have : ((fun c : AudioRawFrame => c.audio) ∘
        (fun c => ({ audio := c, sample_rate := f.sample_rate,
                     num_channels := f.num_channels } : AudioRawFrame)))
        = fun c : List Nat => c := rfl
    rw [this, List.map_id']
    exact chunkBytes_join _ hC _
  · intro c hc
    rw [handle_audio] at hc
    obtain ⟨c', _, rfl⟩ := List.mem_map.mp hc
    exact ⟨rfl, rfl⟩
  · simp [sysStep, hs, procFrameStep]

/-- Witness for C2 at `exampleParams` (chunk size 2) and a 3-byte payload. -/
theorem C2_chunking_exact_witness :
    (0 < audio_chunk_size exampleParams ∧ initState.cancelPhase = 0) ∧
    ((handle_audio exampleParams exAudio).length
      = (exAudio.audio.length + audio_chunk_size exampleParams - 1) / audio_chunk_size exampleParams ∧
    (∀ c ∈ (handle_audio exampleParams exAudio).dropLast,
      c.audio.length = audio_chunk_size exampleParams) ∧
    ((handle_audio exampleParams exAudio).map (fun c => c.audio.length)).sum
      = exAudio.audio.length ∧
    ((handle_audio exampleParams exAudio).map (fun c => c.audio)).flatten = exAudio.audio ∧
    (∀ c ∈ handle_audio exampleParams exAudio,
      c.sample_rate = exAudio.sample_rate ∧ c.num_channels = exAudio.num_channels) ∧
    (sysStep exampleParams true initState (.procFrame (.audio exAudio))).sink_queue
      = initState.sink_queue ++ (handle_audio exampleParams exAudio).map Frame.audio) :=
  ⟨⟨by decide, by decide⟩,
   C2_chunking_exact exampleParams exAudio true initState (by decide) (by decide)⟩

/-- Single-call behaviour of `_maybe_send_audio` with a successful write
and a buffer below two chunks: at most one chunk is flushed, the flushed
chunk is exactly `C` bytes, nothing is lost, and the remainder is below
one chunk. -/
theorem maybe_send_audio_ok (C : Nat) (hC : 0 < C) (b : List Nat)
    (hb : b.length < 2 * C) :
    (maybe_send_audio C true b).1.length < C ∧
    (maybe_send_audio C true b).2.1.length ≤ 1 ∧
    (∀ w ∈ (maybe_send_audio C true b).2.1, w.length = C) ∧
    (maybe_send_audio C true b).2.1.flatten ++ (maybe_send_audio C true b).1 = b := by
  by_cases h : C ≤ b.length
  · simp only [maybe_send_audio, if_pos h, if_true]
    refine ⟨?_, ?_, ?_, ?_⟩
    · rw [List.length_drop]
      omega
    · simp
    · intro w hw
      simp only [List.mem_singleton] at hw
      subst hw
      rw [List.length_take]
      omega
    · simp [List.take_append_drop]
  · simp only [maybe_send_audio, if_neg h]
    refine ⟨by omega, by simp, by simp, by simp⟩

/-- C4 (amended): the sink flushes at most one `chunkSize` prefix per
dequeued audio frame (the source has a single `if`, not a `while` loop);
since dequeued audio frames are pre-chunked to at most `chunkSize`
bytes, handling one such frame from a buffer below `chunkSize` appends
the bytes, flushes at most one exactly-`chunkSize` chunk, loses nothing,
and leaves fewer than `chunkSize` buffered bytes. -/
theorem C4_single_flush (p : TransportParams) (buffer : List Nat)
    (a : AudioRawFrame)
    (hen : p.audio_out_enabled = true)
    (hC : 0 < audio_chunk_size p)
    (hbuf : buffer.length < audio_chunk_size p)
    (ha : a.audio.length ≤ audio_chunk_size p) :
    (sink_process p false true buffer (.audio a)).buffer.length < audio_chunk_size p ∧
    (sink_process p false true buffer (.audio a)).audioWrites.length ≤ 1 ∧
    (∀ w ∈ (sink_process p false true buffer (.audio a)).audioWrites,
      w.length = audio_chunk_size p) ∧
    (sink_process p false true buffer (.audio a)).audioWrites.flatten
      ++ (sink_process p false true buffer (.audio a)).buffer = buffer ++ a.audio := by
  have hb : (buffer ++ a.audio).length < 2 * audio_chunk_size p := by
    rw [List.length_append]
    omega
  have h := maybe_send_audio_ok (audio_chunk_size p) hC (buffer ++ a.audio) hb
  simp only [sink_process, hen, Bool.false_eq_true, if_false, if_true]
  exact h

/-- C4 counterexample: the universally-quantified consequence of the claim —
"for an audio frame of any length, handling that one frame leaves fewer
than chunkSize buffered bytes" — fails on the code: a 4-byte frame at
chunk size 2 leaves 2 bytes buffered, because `_maybe_send_audio`
flushes at most one chunk per call. -/
theorem C4_counterexample :
    ¬ ((sink_process exampleParams false true []
        (.audio { audio := [9, 9, 9, 9], sample_rate := 100, num_channels := 1 })).buffer.length
      < audio_chunk_size exampleParams) := by decide

/-- Witness for C4 (amended) at chunk size 2, buffer [5], payload [4, 6]. -/
theorem C4_single_flush_witness :
    (exampleParams.audio_out_enabled = true ∧
     0 < audio_chunk_size exampleParams ∧
     ([5] : List Nat).length < audio_chunk_size exampleParams ∧
     ({ audio := [4, 6], sample_rate := 100, num_channels := 1 } : AudioRawFrame).audio.length
       ≤ audio_chunk_size exampleParams) ∧
    ((sink_process exampleParams false true [5]
        (.audio { audio := [4, 6], sample_rate := 100, num_channels := 1 })).buffer.length
      < audio_chunk_size exampleParams ∧
    (sink_process exampleParams false true [5]
        (.audio { audio := [4, 6], sample_rate := 100, num_channels := 1 })).audioWrites.length ≤ 1 ∧
    (∀ w ∈ (sink_process exampleParams false true [5]
        (.audio { audio := [4, 6], sample_rate := 100, num_channels := 1 })).audioWrites,
      w.length = audio_chunk_size exampleParams) ∧
    (sink_process exampleParams false true [5]
        (.audio { audio := [4, 6], sample_rate := 100, num_channels := 1 })).audioWrites.flatten
      ++ (sink_process exampleParams false true [5]
        (.audio { audio := [4, 6], sample_rate := 100, num_channels := 1 })).buffer
      = [5] ++ ({ audio := [4, 6], sample_rate := 100, num_channels := 1 } : AudioRawFrame).audio) :=
  ⟨⟨rfl, by decide, by decide, by decide⟩,
   C4_single_flush exampleParams [5] { audio := [4, 6], sample_rate := 100, num_channels := 1 }
     rfl (by decide) (by decide) (by decide)⟩

/-- C6: when `write_raw_audio_frames` raises while flushing a chunk, the
exception is caught, the error is logged, the buffer (with the frame
bytes already appended) is returned unchanged — the unflushed chunk
stays at its front — and the sink loop moves on to the next item. -/
theorem C6_write_failure_preserved (p : TransportParams) (allowed : Bool)
    (C : Nat) (b buffer : List Nat) (a : AudioRawFrame) (s : SysState) (f : Frame)
    (hCb : C ≤ b.length)
    (hen : p.audio_out_enabled = true)
    (hlog : audio_chunk_size p ≤ (buffer ++ a.audio).length)
    (hphase : s.sinkPhase = .processing f) :
    maybe_send_audio C false b = (b, [], true) ∧
    (sink_process p false false buffer (.audio a)).buffer = buffer ++ a.audio ∧
    (sink_process p false false buffer (.audio a)).audioWrites = [] ∧
    (sink_process p false false buffer (.audio a)).writeErrorLogged = true ∧
    (sysStep p allowed s (.sinkDo false)).sinkPhase = .idle := by
  refine ⟨?_, ?_, ?_, ?_, ?_⟩
  · simp [maybe_send_audio, hCb]
  · simp [sink_process, hen, maybe_send_audio]
    split <;> rfl
  · simp [sink_process, hen, maybe_send_audio]
    split <;> rfl
  · have hlog' : audio_chunk_size p ≤ buffer.length + a.audio.length := by
      rw [List.length_append] at hlog
      exact hlog
    simp [sink_process, hen, maybe_send_audio, hlog']
  · simp only [sysStep, hphase]
    split
    · simp only [stopT]
      split <;> rfl
    · rfl

/-- Witness for C6: chunk size 2, buffer [5] plus 2 appended bytes. -/
theorem C6_write_failure_preserved_witness :
    (2 ≤ ([1, 2, 3] : List Nat).length ∧
     exampleParams.audio_out_enabled = true ∧
     audio_chunk_size exampleParams
       ≤ ([5] ++ ({ audio := [4, 6], sample_rate := 100, num_channels := 1 } : AudioRawFrame).audio).length ∧
     (c6state : SysState).sinkPhase
       = .processing exFrame) ∧
    (maybe_send_audio 2 false [1, 2, 3] = ([1, 2, 3], [], true) ∧
    (sink_process exampleParams false false [5]
        (.audio { audio := [4, 6], sample_rate := 100, num_channels := 1 })).buffer
      = [5] ++ ({ audio := [4, 6], sample_rate := 100, num_channels := 1 } : AudioRawFrame).audio ∧
    (sink_process exampleParams false false [5]
        (.audio { audio := [4, 6], sample_rate := 100, num_channels := 1 })).audioWrites = [] ∧
    (sink_process exampleParams false false [5]
        (.audio { audio := [4, 6], sample_rate := 100, num_channels := 1 })).writeErrorLogged = true ∧
    (sysStep exampleParams true c6state
        (.sinkDo false)).sinkPhase = .idle) :=
  ⟨⟨by decide, rfl, by decide, rfl⟩,
   C6_write_failure_preserved exampleParams true 2 [1, 2, 3] [5]
     { audio := [4, 6], sample_rate := 100, num_channels := 1 }
     c6state exFrame
     (by decide) rfl (by decide) rfl⟩

/-- C7: `_draw_image` resizes exactly once (with a warning) when the
image size differs from the configured camera output size, and the frame
handed to `write_frame_to_camera` then has exactly the configured size
(with `format = none`, as PIL leaves it for in-memory results); a
matching image is written unchanged with no resize and no warning. -/
theorem C7_resize (p : TransportParams)
    (pilResize : ImageRawFrame → Nat × Nat → List Nat) (frame : ImageRawFrame) :
    (frame.size ≠ (p.camera_out_width, p.camera_out_height) →
      (draw_image p pilResize frame).resizeCount = 1 ∧
      (draw_image p pilResize frame).warned = true ∧
      (draw_image p pilResize frame).written.size
        = (p.camera_out_width, p.camera_out_height) ∧
      (draw_image p pilResize frame).written.format = none) ∧
    (frame.size = (p.camera_out_width, p.camera_out_height) →
      (draw_image p pilResize frame).written = frame ∧
      (draw_image p pilResize frame).resizeCount = 0 ∧
      (draw_image p pilResize frame).warned = false) := by
  constructor
  · intro h
    simp [draw_image, h]
  · intro h
    simp [draw_image, h]

/-- Witness for C7: a 3x3 image resized to the configured 2x2, and a 2x2
image written unchanged. -/
theorem C7_resize_witness :
    (({ image := [0, 0, 0], size := (3, 3), format := some ("RGB") } : ImageRawFrame).size
       ≠ (exampleParams.camera_out_width, exampleParams.camera_out_height) ∧
     ({ image := [0], size := (2, 2), format := some ("RGB") } : ImageRawFrame).size
       = (exampleParams.camera_out_width, exampleParams.camera_out_height)) ∧
    ((draw_image exampleParams (fun fr sz => [])
        { image := [0, 0, 0], size := (3, 3), format := some ("RGB") }).resizeCount = 1 ∧
     (draw_image exampleParams (fun fr sz => [])
        { image := [0, 0, 0], size := (3, 3), format := some ("RGB") }).warned = true ∧
     (draw_image exampleParams (fun fr sz => [])
        { image := [0, 0, 0], size := (3, 3), format := some ("RGB") }).written.size
       = (exampleParams.camera_out_width, exampleParams.camera_out_height) ∧
     (draw_image exampleParams (fun fr sz => [])
        { image := [0, 0, 0], size := (3, 3), format := some ("RGB") }).written.format
       = none) ∧
    ((draw_image exampleParams (fun fr sz => [])
        { image := [0], size := (2, 2), format := some ("RGB") }).written
       = { image := [0], size := (2, 2), format := some ("RGB") } ∧
     (draw_image exampleParams (fun fr sz => [])
        { image := [0], size := (2, 2), format := some ("RGB") }).resizeCount = 0 ∧
     (draw_image exampleParams (fun fr sz => [])
        { image := [0], size := (2, 2), format := some ("RGB") }).warned = false) :=
  ⟨⟨by decide, by decide⟩,
   (C7_resize exampleParams (fun fr sz => [])
      { image := [0, 0, 0], size := (3, 3), format := some ("RGB") }).1 (by decide),
   (C7_resize exampleParams (fun fr sz => [])
      { image := [0], size := (2, 2), format := some ("RGB") }).2 (by decide)⟩

/-- C8: an audio frame with an empty payload produces no chunks: the
audio branch of the dispatcher leaves the sink queue — and the whole state,
including the directly-pushed frames — unchanged, so the frame never
reaches the audio sink or the downstream emitter. -/
theorem C8_empty_audio_dropped (p : TransportParams) (allowed : Bool)
    (s : SysState) (sr ch : Nat) (hC : 0 < audio_chunk_size p) :
    sysStep p allowed s
      (.procFrame (.audio { audio := [], sample_rate := sr, num_channels := ch })) = s := by
  have hnil : handle_audio p { audio := [], sample_rate := sr, num_channels := ch } = [] := rfl
  simp [sysStep, procFrameStep, hnil]

/-- Witness for C8 from the freshly-constructed state. -/
theorem C8_empty_audio_dropped_witness :
    0 < audio_chunk_size exampleParams ∧
    sysStep exampleParams true initState
      (.procFrame (.audio { audio := [], sample_rate := 100, num_channels := 1 }))
      = initState :=
  ⟨by decide,
   C8_empty_audio_dropped exampleParams true initState 100 1 (by decide)⟩

/-- C10: the `EndFrame` check sits outside the interruption branch, so a
dequeued `EndFrame` requests `stop` whether or not the transport is
interrupted — while every other effect of the dequeued item (writes,
camera updates, messages, metrics, downstream forwarding) is suppressed
and the buffer is cleared when interrupted. -/
theorem C10_end_check_outside_interruption (p : TransportParams)
    (writeOk : Bool) (buffer : List Nat) (f : Frame) :
    (sink_process p true writeOk buffer f).stopRequested
      = (sink_process p false writeOk buffer f).stopRequested ∧
    ((sink_process p true writeOk buffer f).stopRequested = true ↔ f = .endFrame) ∧
    (sink_process p true writeOk buffer f).audioWrites = [] ∧
    (sink_process p true writeOk buffer f).pushedDownstream = [] ∧
    (sink_process p true writeOk buffer f).messagesSent = [] ∧
    (sink_process p true writeOk buffer f).metricsSent = [] ∧
    (sink_process p true writeOk buffer f).cameraLiveEnqueued = [] ∧
    (sink_process p true writeOk buffer f).cameraCycleSet = none ∧
    (sink_process p true writeOk buffer f).buffer = [] := by
  cases f <;>
    simp [sink_process, isEnd] <;>
    split_ifs <;>
    simp

/-- `stop` touches only `_running` and `_stopped_event`. -/
theorem stopT_buffer (s : SysState) : (stopT s).buffer = s.buffer := by
  simp only [stopT]
  split <;> rfl

/-- `stop` leaves the sink queue alone. -/
theorem stopT_sink_queue (s : SysState) : (stopT s).sink_queue = s.sink_queue := by
  simp only [stopT]
  split <;> rfl

/-- `stop` leaves the phase of the sink worker alone. -/
theorem stopT_sinkPhase (s : SysState) : (stopT s).sinkPhase = s.sinkPhase := by
  simp only [stopT]
  split <;> rfl

/-- Handling one dequeued frame with a succeeding write keeps the
accumulation buffer below one chunk, provided the frame (if audio) was
pre-chunked. -/
theorem sink_process_buffer_lt (p : TransportParams) (interrupted : Bool)
    (buf : List Nat) (f : Frame)
    (hC : 0 < audio_chunk_size p) (hbuf : buf.length < audio_chunk_size p)
    (hf : ∀ a : AudioRawFrame, f = .audio a → a.audio.length ≤ audio_chunk_size p) :
    (sink_process p interrupted true buf f).buffer.length < audio_chunk_size p := by
  cases interrupted with
  | true => simpa [sink_process] using hC
  | false =>
      cases f with
      | audio a =>
          by_cases hen : p.audio_out_enabled
          · have ha := hf a rfl
            have hb : (buf ++ a.audio).length < 2 * audio_chunk_size p := by
              rw [List.length_append]
              omega
            have h := (maybe_send_audio_ok _ hC _ hb).1
            simpa [sink_process, hen] using h
          · simpa [sink_process, hen] using hbuf
      | image i =>
          simp only [sink_process]
          split_ifs <;> simp_all
      | sprite imgs =>
          simp only [sink_process]
          split_ifs <;> simp_all
      | start => simpa [sink_process] using hbuf
      | cancel => simpa [sink_process] using hbuf
      | endFrame => simpa [sink_process] using hbuf
      | startInterruption => simpa [sink_process] using hbuf
      | stopInterruption => simpa [sink_process] using hbuf
      | system n => simpa [sink_process] using hbuf
      | transportMessage m => simpa [sink_process] using hbuf
      | metrics m => simpa [sink_process] using hbuf
      | text t => simpa [sink_process] using hbuf

/-- One interleaving step preserves the sink invariant, as long as the
audio write collaborator does not raise (the in-repo
`write_raw_audio_frames` is a no-op and never does). -/
theorem sinkInv_step (p : TransportParams) (allowed : Bool) (s : SysState) (e : Ev)
    (hC : 0 < audio_chunk_size p) (hinv : sinkInv p s) (he : e ≠ .sinkDo false) :
    sinkInv p (sysStep p allowed s e) := by
  obtain ⟨hbuf, hqueue, hproc⟩ := hinv
  cases e with
  | procFrame f =>
      simp only [sysStep]
      split
      · cases f with
        | start =>
            by_cases hr : s.running
            · simp only [procFrameStep, hr, if_true]
              exact ⟨hbuf, hqueue, hproc⟩
            · simp only [procFrameStep, hr, if_false]
              refine ⟨by simpa using hC, hqueue, ?_⟩
              intro b hb
              simp at hb
        | cancel =>
            refine ⟨?_, ?_, ?_⟩
            · simpa only [procFrameStep, stopT_buffer] using hbuf
            · intro b hb
              apply hqueue
              simpa only [procFrameStep, stopT_sink_queue] using hb
            · intro b hb
              apply hproc
              simpa only [procFrameStep, stopT_sinkPhase] using hb
        | startInterruption =>
            by_cases hal : allowed <;>
              simp only [procFrameStep, hal, if_true, if_false] <;>
              exact ⟨hbuf, hqueue, hproc⟩
        | stopInterruption =>
            by_cases hal : allowed <;>
              simp only [procFrameStep, hal, if_true, if_false] <;>
              exact ⟨hbuf, hqueue, hproc⟩
        | system n => exact ⟨hbuf, hqueue, hproc⟩
        | audio a =>
            refine ⟨hbuf, ?_, hproc⟩
            intro b hb
            simp only [procFrameStep, List.mem_append, List.mem_map] at hb
            rcases hb with hb | ⟨c, hc, hcb⟩
            · exact hqueue b hb
            · injection hcb with h
              subst h
              exact handle_audio_mem_length p hC a c hc
        | endFrame =>
            refine ⟨hbuf, ?_, hproc⟩
            intro b hb
            simp only [procFrameStep, List.mem_append, List.mem_singleton] at hb
            rcases hb with hb | hb
            · exact hqueue b hb
            · simp at hb
        | image i =>
            refine ⟨hbuf, ?_, hproc⟩
            intro b hb
            simp only [procFrameStep, List.mem_append, List.mem_singleton] at hb
            rcases hb with hb | hb
            · exact hqueue b hb
            · simp at hb
        | sprite imgs =>
            refine ⟨hbuf, ?_, hproc⟩
            intro b hb
            simp only [procFrameStep, List.mem_append, List.mem_singleton] at hb
            rcases hb with hb | hb
            · exact hqueue b hb
            · simp at hb
        | transportMessage m =>
            refine ⟨hbuf, ?_, hproc⟩
            intro b hb
            simp only [procFrameStep, List.mem_append, List.mem_singleton] at hb
            rcases hb with hb | hb
            · exact hqueue b hb
            · simp at hb
        | metrics m =>
            refine ⟨hbuf, ?_, hproc⟩
            intro b hb
            simp only [procFrameStep, List.mem_append, List.mem_singleton] at hb
            rcases hb with hb | hb
            · exact hqueue b hb
            · simp at hb
        | text t =>
            refine ⟨hbuf, ?_, hproc⟩
            intro b hb
            simp only [procFrameStep, List.mem_append, List.mem_singleton] at hb
            rcases hb with hb | hb
            · exact hqueue b hb
            · simp at hb
      · exact ⟨hbuf, hqueue, hproc⟩
  | sinkDequeue =>
      rcases hsp : s.sinkPhase with _ | f | _
      · by_cases hr : s.running
        · rcases hsq : s.sink_queue with _ | ⟨f, rest⟩
          · simp only [sysStep, hsp, hr, if_true, hsq]
            exact ⟨hbuf, hqueue, hproc⟩
          · simp only [sysStep, hsp, hr, if_true, hsq]
            refine ⟨hbuf, ?_, ?_⟩
            · intro b hb
              apply hqueue
              rw [hsq]
              exact List.mem_cons_of_mem _ hb
            · intro b hb
              injection hb with h
              subst h
              apply hqueue
              rw [hsq]
              exact List.mem_cons_self _ _
        · simp only [sysStep, hsp, hr, if_false]
          refine ⟨hbuf, hqueue, ?_⟩
          intro b hb
          simp at hb
      · simp only [sysStep, hsp]
        exact ⟨hbuf, hqueue, hproc⟩
      · simp only [sysStep, hsp]
        exact ⟨hbuf, hqueue, hproc⟩
  | sinkDo wOk =>
      cases wOk with
      | false => exact absurd rfl he
      | true =>
          rcases hsp : s.sinkPhase with _ | f | _
          · simp only [sysStep, hsp]
            exact ⟨hbuf, hqueue, hproc⟩
          · have hfb : ∀ a : AudioRawFrame, f = .audio a →
                a.audio.length ≤ audio_chunk_size p := by
              intro a haeq
              apply hproc
              rw [hsp, haeq]
            have hb := sink_process_buffer_lt p s.is_interrupted s.buffer f hC hbuf hfb
            simp only [sysStep, hsp]
            split
            · refine ⟨?_, ?_, ?_⟩
              · simpa only [stopT_buffer] using hb
              · intro b hbm
                apply hqueue
                simpa only [stopT_sink_queue] using hbm
              · intro b hbm
                rw [stopT_sinkPhase] at hbm
                simp at hbm
            · refine ⟨hb, hqueue, ?_⟩
              intro b hbm
              simp at hbm
          · simp only [sysStep, hsp]
            exact ⟨hbuf, hqueue, hproc⟩
  | awaitStopped =>
      simp only [sysStep]
      split
      · exact ⟨hbuf, hqueue, hproc⟩
      · exact ⟨hbuf, hqueue, hproc⟩

/-- The sink invariant holds along every trace whose audio writes all
succeed. -/
theorem sinkInv_run (p : TransportParams) (allowed : Bool) (evs : List Ev) :
    ∀ s : SysState, 0 < audio_chunk_size p → sinkInv p s →
      Ev.sinkDo false ∉ evs → sinkInv p (sysRun p allowed s evs) := by
  induction evs with
  | nil =>
      intro s _ h _
      exact h
  | cons e evs ih =>
      intro s hC hinv hmem
      have h1 : e ≠ Ev.sinkDo false := by
        intro h
        exact hmem (h ▸ List.mem_cons_self _ _)
      have h2 : Ev.sinkDo false ∉ evs := fun h => hmem (List.mem_cons_of_mem _ h)
      exact ih (sysStep p allowed s e) hC (sinkInv_step p allowed s e hC hinv h1) h2

/-- C3: in every reachable state (any trace from the freshly-constructed
transport in which the audio write collaborator never raises — the
in-repo `write_raw_audio_frames` is a no-op), after the sink sequencer
finishes any item the accumulation buffer holds strictly fewer than
`chunkSize` bytes. -/
theorem C3_buffer_invariant (p : TransportParams) (allowed : Bool) (evs : List Ev)
    (hC : 0 < audio_chunk_size p) (hok : Ev.sinkDo false ∉ evs) :
    (sysRun p allowed initState evs).buffer.length < audio_chunk_size p := by
  refine (sinkInv_run p allowed evs initState hC ⟨by simpa using hC, ?_, ?_⟩ hok).1
  · intro b hb
    simp [initState] at hb
  · intro b hb
    simp [initState] at hb

/-- Witness for C3 along the example trace. -/
theorem C3_buffer_invariant_witness :
    (0 < audio_chunk_size exampleParams ∧ Ev.sinkDo false ∉ c5trace) ∧
    (sysRun exampleParams true initState c5trace).buffer.length
      < audio_chunk_size exampleParams :=
  ⟨⟨by decide, by decide⟩,
   C3_buffer_invariant exampleParams true c5trace (by decide) (by decide)⟩

/-- `stop` is a no-op when `_running` is already false (lines 88-89); in
particular it does not set `_stopped_event`. -/
theorem stopT_not_running (s : SysState) (h : s.running = false) : stopT s = s := by
  simp [stopT, h]

/-- Any single dequeued item causes at most one audio write. -/
theorem sink_process_writes_le_one (p : TransportParams) (i w : Bool)
    (b : List Nat) (f : Frame) :
    (sink_process p i w b f).audioWrites.length ≤ 1 := by
  cases i <;> cases f <;>
    simp [sink_process, maybe_send_audio] <;>
    split_ifs <;> simp

/-- The sink requests `stop` exactly for a dequeued `EndFrame`,
independently of the interrupted flag and of write success. -/
theorem sink_process_stopRequested (p : TransportParams) (i w : Bool)
    (b : List Nat) (f : Frame) :
    (sink_process p i w b f).stopRequested = isEnd f := by
  cases i <;> cases f <;>
    simp [sink_process, isEnd] <;>
    split_ifs <;> rfl

/-- The writes performed so far never exceed the potential. -/
theorem sinkPot_lower (s : SysState) : s.audioWrites.length ≤ sinkPot s :=
  Nat.le_add_right _ _

/-- The potential exceeds the writes performed so far by at most one. -/
theorem sinkPot_upper (s : SysState) : sinkPot s ≤ s.audioWrites.length + 1 := by
  unfold sinkPot
  cases s.sinkPhase <;> simp

/-- After `process_frame(Cancel/End)` has returned (`cancelPhase = 2`)
with the transport stopped, one interleaving step keeps it stopped, can
only decrease the write potential, and — if the sink worker is not
mid-item — performs no audio write and cannot reach a mid-item state. -/
theorem sysStep_after_stop (p : TransportParams) (allowed : Bool)
    (s : SysState) (e : Ev)
    (h1 : s.running = false) (h2 : s.stopped_event = true)
    (h3 : s.cancelPhase = 2) :
    (sysStep p allowed s e).running = false ∧
    (sysStep p allowed s e).stopped_event = true ∧
    (sysStep p allowed s e).cancelPhase = 2 ∧
    sinkPot (sysStep p allowed s e) ≤ sinkPot s ∧
    s.audioWrites.length ≤ (sysStep p allowed s e).audioWrites.length ∧
    ((∀ f, s.sinkPhase ≠ .processing f) →
      (sysStep p allowed s e).audioWrites = s.audioWrites ∧
      (∀ f, (sysStep p allowed s e).sinkPhase ≠ .processing f)) := by
  cases e with
  | procFrame f =>
      have heq : sysStep p allowed s (.procFrame f) = s := by
        simp [sysStep, h3]
      rw [heq]
      exact ⟨h1, h2, h3, Nat.le_refl _, Nat.le_refl _, fun h => ⟨rfl, h⟩⟩
  | sinkDequeue =>
      rcases hsp : s.sinkPhase with _ | f | _
      · have heq : sysStep p allowed s .sinkDequeue = { s with sinkPhase := .exited } := by
          simp [sysStep, hsp, h1]
        rw [heq]
        refine ⟨h1, h2, h3, ?_, Nat.le_refl _, fun h => ⟨rfl, ?_⟩⟩
        · simp [sinkPot, hsp]
        · intro g hg
          simp at hg
      · have heq : sysStep p allowed s .sinkDequeue = s := by
          simp [sysStep, hsp]
        rw [heq, hsp]
        exact ⟨h1, h2, h3, Nat.le_refl _, Nat.le_refl _, fun h => ⟨rfl, h⟩⟩
      · have heq : sysStep p allowed s .sinkDequeue = s := by
          simp [sysStep, hsp]
        rw [heq, hsp]
        exact ⟨h1, h2, h3, Nat.le_refl _, Nat.le_refl _, fun h => ⟨rfl, h⟩⟩
  | sinkDo wOk =>
      rcases hsp : s.sinkPhase with _ | f | _
      · have heq : sysStep p allowed s (.sinkDo wOk) = s := by
          simp [sysStep, hsp]
        rw [heq, hsp]
        exact ⟨h1, h2, h3, Nat.le_refl _, Nat.le_refl _, fun h => ⟨rfl, h⟩⟩
      · have heq : sysStep p allowed s (.sinkDo wOk) =
            { s with
              buffer := (sink_process p s.is_interrupted wOk s.buffer f).buffer,
              audioWrites := s.audioWrites
                ++ (sink_process p s.is_interrupted wOk s.buffer f).audioWrites,
              sinkPushed := s.sinkPushed
                ++ (sink_process p s.is_interrupted wOk s.buffer f).pushedDownstream,
              cameraLiveQueue := s.cameraLiveQueue
                ++ (sink_process p s.is_interrupted wOk s.buffer f).cameraLiveEnqueued,
              cameraCycle :=
                (match (sink_process p s.is_interrupted wOk s.buffer f).cameraCycleSet with
                 | some l => some l
                 | none => s.cameraCycle),
              sinkPhase := .idle } := by
          simp only [sysStep, hsp]
          split
          · exact stopT_not_running _ h1
          · rfl
        rw [heq]
        refine ⟨h1, h2, h3, ?_, by simp, ?_⟩
        · have hw := sink_process_writes_le_one p s.is_interrupted wOk s.buffer f
          simp [sinkPot, hsp]
          omega
        · intro h
          exact absurd rfl (h f)
      · have heq : sysStep p allowed s (.sinkDo wOk) = s := by
          simp [sysStep, hsp]
        rw [heq, hsp]
        exact ⟨h1, h2, h3, Nat.le_refl _, Nat.le_refl _, fun h => ⟨rfl, h⟩⟩
  | awaitStopped =>
      have heq : sysStep p allowed s .awaitStopped = s := by
        simp [sysStep, h3]
      rw [heq]
      exact ⟨h1, h2, h3, Nat.le_refl _, Nat.le_refl _, fun h => ⟨rfl, h⟩⟩

/-- Trace version of `sysStep_after_stop`. -/
theorem sysRun_after_stop (p : TransportParams) (allowed : Bool) (evs : List Ev) :
    ∀ s : SysState, s.running = false → s.stopped_event = true →
      s.cancelPhase = 2 →
      (sysRun p allowed s evs).running = false ∧
      (sysRun p allowed s evs).stopped_event = true ∧
      (sysRun p allowed s evs).cancelPhase = 2 ∧
      sinkPot (sysRun p allowed s evs) ≤ sinkPot s ∧
      s.audioWrites.length ≤ (sysRun p allowed s evs).audioWrites.length ∧
      ((∀ f, s.sinkPhase ≠ .processing f) →
        (sysRun p allowed s evs).audioWrites = s.audioWrites ∧
        (∀ f, (sysRun p allowed s evs).sinkPhase ≠ .processing f)) := by
  induction evs with
  | nil =>
      intro s h1 h2 h3
      exact ⟨h1, h2, h3, Nat.le_refl _, Nat.le_refl _, fun h => ⟨rfl, h⟩⟩
  | cons e evs ih =>
      intro s h1 h2 h3
      obtain ⟨g1, g2, g3, g4, g5, g6⟩ := sysStep_after_stop p allowed s e h1 h2 h3
      obtain ⟨k1, k2, k3, k4, k5, k6⟩ := ih (sysStep p allowed s e) g1 g2 g3
      refine ⟨k1, k2, k3, Nat.le_trans k4 g4, Nat.le_trans g5 k5, ?_⟩
      intro h
      obtain ⟨e1, e2⟩ := g6 h
      obtain ⟨f1, f2⟩ := k6 e2
      constructor
      · show (sysRun p allowed (sysStep p allowed s e) evs).audioWrites = s.audioWrites
        rw [f1, e1]
      · show ∀ f, (sysRun p allowed (sysStep p allowed s e) evs).sinkPhase
            ≠ SinkPhase.processing f
        exact f2

/-- C5 counterexample: along `c5trace`, `process_frame(Cancel)` has
returned (`cancelPhase = 2`) while the sink worker is still holding an
undelivered audio chunk (it has not exited), and the very next sink step
performs a collaborator audio write — after `process` returned. -/
theorem C5_counterexample :
    (sysRun exampleParams true initState c5trace).cancelPhase = 2 ∧
    (sysRun exampleParams true initState c5trace).sinkPhase ≠ SinkPhase.exited ∧
    (sysRun exampleParams true initState c5trace).audioWrites = [] ∧
    (sysStep exampleParams true (sysRun exampleParams true initState c5trace)
        (.sinkDo true)).audioWrites = [[7, 7]] := by decide

/-- Two incompatible Bool facts. -/
theorem bool_false_ne_true {b : Bool} (h1 : b = false) (h2 : b = true) : False := by
  rw [h1] at h2
  exact Bool.noConfusion h2

/-- Every interleaving step preserves the lifecycle invariant. -/
theorem lifecycleInv_step (p : TransportParams) (allowed : Bool)
    (s : SysState) (e : Ev) (h : lifecycleInv s) :
    lifecycleInv (sysStep p allowed s e) := by
  obtain ⟨i1, i2, i3, i4, i5⟩ := h
  cases e with
  | procFrame f =>
      by_cases hc : s.cancelPhase = 0
      case neg =>
        have heq : sysStep p allowed s (.procFrame f) = s := by
          simp [sysStep, hc]
        rw [heq]
        exact ⟨i1, i2, i3, i4, i5⟩
      case pos =>
        have hst : s.stopped_event = false := by
          cases hse : s.stopped_event
          · rfl
          · have := i2 hse
            omega
        have hend : Frame.endFrame ∉ s.sink_queue := by
          intro hmem
          have := i4 hmem
          omega
        have heq : sysStep p allowed s (.procFrame f) = procFrameStep p allowed s f := by
          simp [sysStep, hc]
        rw [heq]
        cases f with
        | start =>
            by_cases hr : s.running
            · have heq2 : procFrameStep p allowed s .start
                  = { s with pushed := s.pushed ++ [.start] } := by
                simp [procFrameStep, hr]
              rw [heq2]
              exact ⟨i1, i2, i3, i4, i5⟩
            · have heq2 : procFrameStep p allowed s .start
                  = { s with
                      running := true
                      sinkPhase := .idle
                      buffer := []
                      pushed := s.pushed ++ [.start] } := by
                simp [procFrameStep, hr]
              rw [heq2]
              refine ⟨?_, ?_, ?_, ?_, ?_⟩
              · intro hse
                exact absurd (bool_false_ne_true hst hse) (fun h => h)
              · intro hse
                exact absurd (bool_false_ne_true hst hse) (fun h => h)
              · intro h2
                have h2' : s.cancelPhase = 2 := h2
                omega
              · intro hmem
                exact absurd (hend hmem) (fun h => h)
              · intro hph
                have hph' : SinkPhase.idle = SinkPhase.processing Frame.endFrame := hph
                simp at hph'
        | cancel =>
            by_cases hr : s.running
            · have heq2 : procFrameStep p allowed s .cancel
                  = { s with
                      running := false
                      stopped_event := true
                      pushed := s.pushed ++ [.cancel]
                      cancelPhase := 1 } := by
                simp [procFrameStep, stopT, hr]
              rw [heq2]
              exact ⟨fun _ => rfl, fun _ => Nat.le_refl 1, fun h2 => by
                  have h2' : (1 : Nat) = 2 := h2
                  omega,
                fun _ => Nat.le_refl 1, fun _ => Nat.le_refl 1⟩
            · have heq2 : procFrameStep p allowed s .cancel
                  = { s with pushed := s.pushed ++ [.cancel], cancelPhase := 1 } := by
                simp [procFrameStep, stopT, hr]
              rw [heq2]
              refine ⟨?_, fun _ => Nat.le_refl 1, ?_, fun _ => Nat.le_refl 1,
                fun _ => Nat.le_refl 1⟩
              · intro hse
                have hse' : s.stopped_event = true := hse
                exact absurd (bool_false_ne_true hst hse') (fun h => h)
              · intro h2
                have h2' : (1 : Nat) = 2 := h2
                omega
        | endFrame =>
            refine ⟨?_, fun _ => Nat.le_refl 1, ?_, fun _ => Nat.le_refl 1,
              fun _ => Nat.le_refl 1⟩
            · intro hse
              have hse' : s.stopped_event = true := hse
              exact absurd (bool_false_ne_true hst hse') (fun h => h)
            · intro h2
              have h2' : (1 : Nat) = 2 := h2
              omega
        | startInterruption =>
            by_cases hal : allowed
            · have heq2 : procFrameStep p allowed s .startInterruption
                  = { s with
                      is_interrupted := true
                      pushed := s.pushed ++ [.startInterruption] } := by
                simp [procFrameStep, hal]
              rw [heq2]
              exact ⟨i1, i2, i3, i4, i5⟩
            · have heq2 : procFrameStep p allowed s .startInterruption
                  = { s with pushed := s.pushed ++ [.startInterruption] } := by
                simp [procFrameStep, hal]
              rw [heq2]
              exact ⟨i1, i2, i3, i4, i5⟩
        | stopInterruption =>
            by_cases hal : allowed
            · have heq2 : procFrameStep p allowed s .stopInterruption
                  = { s with
                      is_interrupted := false
                      pushed := s.pushed ++ [.stopInterruption] } := by
                simp [procFrameStep, hal]
              rw [heq2]
              exact ⟨i1, i2, i3, i4, i5⟩
            · have heq2 : procFrameStep p allowed s .stopInterruption
                  = { s with pushed := s.pushed ++ [.stopInterruption] } := by
                simp [procFrameStep, hal]
              rw [heq2]
              exact ⟨i1, i2, i3, i4, i5⟩
        | system n => exact ⟨i1, i2, i3, i4, i5⟩
        | audio a =>
            refine ⟨i1, i2, i3, ?_, i5⟩
            intro hmem
            have hmem' : Frame.endFrame
                ∈ s.sink_queue ++ (handle_audio p a).map Frame.audio := hmem
            rw [List.mem_append] at hmem'
            rcases hmem' with hm | hm
            · exact i4 hm
            · obtain ⟨c, _, hcb⟩ := List.mem_map.mp hm
              simp at hcb
        | image i =>
            refine ⟨i1, i2, i3, ?_, i5⟩
            intro hmem
            have hmem' : Frame.endFrame ∈ s.sink_queue ++ [Frame.image i] := hmem
            rw [List.mem_append, List.mem_singleton] at hmem'
            rcases hmem' with hm | hm
            · exact i4 hm
            · simp at hm
        | sprite imgs =>
            refine ⟨i1, i2, i3, ?_, i5⟩
            intro hmem
            have hmem' : Frame.endFrame ∈ s.sink_queue ++ [Frame.sprite imgs] := hmem
            rw [List.mem_append, List.mem_singleton] at hmem'
            rcases hmem' with hm | hm
            · exact i4 hm
            · simp at hm
        | transportMessage m =>
            refine ⟨i1, i2, i3, ?_, i5⟩
            intro hmem
            have hmem' : Frame.endFrame ∈ s.sink_queue ++ [Frame.transportMessage m] := hmem
            rw [List.mem_append, List.mem_singleton] at hmem'
            rcases hmem' with hm | hm
            · exact i4 hm
            · simp at hm
        | metrics m =>
            refine ⟨i1, i2, i3, ?_, i5⟩
            intro hmem
            have hmem' : Frame.endFrame ∈ s.sink_queue ++ [Frame.metrics m] := hmem
            rw [List.mem_append, List.mem_singleton] at hmem'
            rcases hmem' with hm | hm
            · exact i4 hm
            · simp at hm
        | text t =>
            refine ⟨i1, i2, i3, ?_, i5⟩
            intro hmem
            have hmem' : Frame.endFrame ∈ s.sink_queue ++ [Frame.text t] := hmem
            rw [List.mem_append, List.mem_singleton] at hmem'
            rcases hmem' with hm | hm
            · exact i4 hm
            · simp at hm
  | sinkDequeue =>
      rcases hsp : s.sinkPhase with _ | f | _
      · by_cases hr : s.running
        · rcases hsq : s.sink_queue with _ | ⟨f, rest⟩
          · have heq : sysStep p allowed s .sinkDequeue = s := by
              simp [sysStep, hsp, hr, hsq]
            rw [heq]
            exact ⟨i1, i2, i3, i4, i5⟩
          · have heq : sysStep p allowed s .sinkDequeue
                = { s with sinkPhase := .processing f, sink_queue := rest } := by
              simp [sysStep, hsp, hr, hsq]
            rw [heq]
            refine ⟨i1, i2, i3, ?_, ?_⟩
            · intro hmem
              have hmem' : Frame.endFrame ∈ rest := hmem
              apply i4
              rw [hsq]
              exact List.mem_cons_of_mem _ hmem'
            · intro hph
              have hph' : SinkPhase.processing f
                  = SinkPhase.processing Frame.endFrame := hph
              injection hph' with hf
              apply i4
              rw [hsq, hf]
              exact List.mem_cons_self _ _
        · have heq : sysStep p allowed s .sinkDequeue
              = { s with sinkPhase := .exited } := by
            simp [sysStep, hsp, hr]
          rw [heq]
          refine ⟨i1, i2, i3, i4, ?_⟩
          intro hph
          have hph' : SinkPhase.exited = SinkPhase.processing Frame.endFrame := hph
          simp at hph'
      · have heq : sysStep p allowed s .sinkDequeue = s := by
          simp [sysStep, hsp]
        rw [heq]
        exact ⟨i1, i2, i3, i4, i5⟩
      · have heq : sysStep p allowed s .sinkDequeue = s := by
          simp [sysStep, hsp]
        rw [heq]
        exact ⟨i1, i2, i3, i4, i5⟩
  | sinkDo wOk =>
      rcases hsp : s.sinkPhase with _ | f | _
      · have heq : sysStep p allowed s (.sinkDo wOk) = s := by
          simp [sysStep, hsp]
        rw [heq]
        exact ⟨i1, i2, i3, i4, i5⟩
      · have hstop := sink_process_stopRequested p s.is_interrupted wOk s.buffer f
        by_cases hf : f = Frame.endFrame
        · subst hf
          have hp1 : 1 ≤ s.cancelPhase := i5 hsp
          by_cases hr : s.running
          · have heq : sysStep p allowed s (.sinkDo wOk)
                = { s with
                    buffer := (sink_process p s.is_interrupted wOk s.buffer .endFrame).buffer,
                    audioWrites := s.audioWrites
                      ++ (sink_process p s.is_interrupted wOk s.buffer .endFrame).audioWrites,
                    sinkPushed := s.sinkPushed
                      ++ (sink_process p s.is_interrupted wOk s.buffer .endFrame).pushedDownstream,
                    cameraLiveQueue := s.cameraLiveQueue
                      ++ (sink_process p s.is_interrupted wOk s.buffer .endFrame).cameraLiveEnqueued,
                    cameraCycle :=
                      (match (sink_process p s.is_interrupted wOk s.buffer .endFrame).cameraCycleSet with
                       | some l => some l
                       | none => s.cameraCycle),
                    sinkPhase := .idle, running := false, stopped_event := true } := by
              simp only [sysStep, hsp, hstop, isEnd, if_true, stopT, hr]
            rw [heq]
            refine ⟨fun _ => rfl, fun _ => hp1, fun _ => rfl, fun hm => hp1, ?_⟩
            intro hph
            have hph' : SinkPhase.idle = SinkPhase.processing Frame.endFrame := hph
            simp at hph'
          · have heq : sysStep p allowed s (.sinkDo wOk)
                = { s with
                    buffer := (sink_process p s.is_interrupted wOk s.buffer .endFrame).buffer,
                    audioWrites := s.audioWrites
                      ++ (sink_process p s.is_interrupted wOk s.buffer .endFrame).audioWrites,
                    sinkPushed := s.sinkPushed
                      ++ (sink_process p s.is_interrupted wOk s.buffer .endFrame).pushedDownstream,
                    cameraLiveQueue := s.cameraLiveQueue
                      ++ (sink_process p s.is_interrupted wOk s.buffer .endFrame).cameraLiveEnqueued,
                    cameraCycle :=
                      (match (sink_process p s.is_interrupted wOk s.buffer .endFrame).cameraCycleSet with
                       | some l => some l
                       | none => s.cameraCycle),
                    sinkPhase := .idle } := by
              simp only [sysStep, hsp, hstop, isEnd, if_true, stopT, hr]
              rfl
            rw [heq]
            have hr' : s.running = false := by
              simpa using hr
            refine ⟨fun _ => hr', fun _ => hp1, ?_, fun hm => hp1, ?_⟩
            · intro h2
              have h2' : s.cancelPhase = 2 := h2
              exact i3 h2'
            · intro hph
              have hph' : SinkPhase.idle = SinkPhase.processing Frame.endFrame := hph
              simp at hph'
        · have hisf : isEnd f = false := by
            cases f <;> first | rfl | exact absurd rfl hf
          have heq : sysStep p allowed s (.sinkDo wOk)
              = { s with
                  buffer := (sink_process p s.is_interrupted wOk s.buffer f).buffer,
                  audioWrites := s.audioWrites
                    ++ (sink_process p s.is_interrupted wOk s.buffer f).audioWrites,
                  sinkPushed := s.sinkPushed
                    ++ (sink_process p s.is_interrupted wOk s.buffer f).pushedDownstream,
                  cameraLiveQueue := s.cameraLiveQueue
                    ++ (sink_process p s.is_interrupted wOk s.buffer f).cameraLiveEnqueued,
                  cameraCycle :=
                    (match (sink_process p s.is_interrupted wOk s.buffer f).cameraCycleSet with
                     | some l => some l
                     | none => s.cameraCycle),
                  sinkPhase := .idle } := by
            simp only [sysStep, hsp, hstop, hisf, Bool.false_eq_true, if_false]
          rw [heq]
          refine ⟨i1, i2, i3, i4, ?_⟩
          intro hph
          have hph' : SinkPhase.idle = SinkPhase.processing Frame.endFrame := hph
          simp at hph'
      · have heq : sysStep p allowed s (.sinkDo wOk) = s := by
          simp [sysStep, hsp]
        rw [heq]
        exact ⟨i1, i2, i3, i4, i5⟩
  | awaitStopped =>
      by_cases hcond : s.cancelPhase = 1 ∧ s.stopped_event = true
      · have heq : sysStep p allowed s .awaitStopped = { s with cancelPhase := 2 } := by
          simp [sysStep, hcond.1, hcond.2]
        rw [heq]
        refine ⟨i1, fun _ => (by decide : (1 : Nat) ≤ 2), fun _ => hcond.2,
          fun _ => (by decide : (1 : Nat) ≤ 2), fun _ => (by decide : (1 : Nat) ≤ 2)⟩
      · have heq : sysStep p allowed s .awaitStopped = s := by
          simp only [sysStep]
          rw [if_neg]
          intro hand
          exact hcond ⟨hand.1, hand.2⟩
        rw [heq]
        exact ⟨i1, i2, i3, i4, i5⟩

/-- The lifecycle invariant holds along every trace. -/
theorem lifecycleInv_run (p : TransportParams) (allowed : Bool) (evs : List Ev) :
    ∀ s : SysState, lifecycleInv s → lifecycleInv (sysRun p allowed s evs) := by
  induction evs with
  | nil =>
      intro s h
      exact h
  | cons e evs ih =>
      intro s h
      exact ih (sysStep p allowed s e) (lifecycleInv_step p allowed s e h)

/-- The freshly-constructed transport satisfies the lifecycle invariant. -/
theorem lifecycleInv_init : lifecycleInv initState := by
  refine ⟨?_, ?_, ?_, ?_, ?_⟩ <;> intro h <;> simp [initState] at h

/-- C5 (amended): after `process_frame(Cancel/End)` returns, `_running`
is false and `_stopped_event` is set — but the event is set by `stop`
itself, *before* the worker loops exit.  From that point the sink worker
dequeues nothing further: at most one more audio write (from the single
item it already held) can occur, none at all if it was not mid-item, and
it exits at its next poll; `cleanup`, not `process_frame`, is what waits
for the threads. -/
theorem C5_shutdown_amended (p : TransportParams) (allowed : Bool)
    (evs evs2 : List Ev)
    (h2 : (sysRun p allowed initState evs).cancelPhase = 2) :
    (sysRun p allowed initState evs).running = false ∧
    (sysRun p allowed initState evs).stopped_event = true ∧
    (sysRun p allowed (sysRun p allowed initState evs) evs2).running = false ∧
    (sysRun p allowed (sysRun p allowed initState evs) evs2).stopped_event = true ∧
    (sysRun p allowed (sysRun p allowed initState evs) evs2).cancelPhase = 2 ∧
    (sysRun p allowed (sysRun p allowed initState evs) evs2).audioWrites.length
      ≤ (sysRun p allowed initState evs).audioWrites.length + 1 ∧
    ((∀ f, (sysRun p allowed initState evs).sinkPhase ≠ .processing f) →
      (sysRun p allowed (sysRun p allowed initState evs) evs2).audioWrites
        = (sysRun p allowed initState evs).audioWrites) := by
  obtain ⟨i1, i2, i3, i4, i5⟩ := lifecycleInv_run p allowed evs initState lifecycleInv_init
  have hse := i3 h2
  have hr := i1 hse
  obtain ⟨k1, k2, k3, k4, k5, k6⟩ := sysRun_after_stop p allowed evs2 _ hr hse h2
  refine ⟨hr, hse, k1, k2, k3, ?_, ?_⟩
  · have hl := sinkPot_lower (sysRun p allowed (sysRun p allowed initState evs) evs2)
    have hu := sinkPot_upper (sysRun p allowed initState evs)
    omega
  · intro h
    exact (k6 h).1

/-- Witness for C5 (amended): the counterexample trace followed by the
sink worker finishing its in-flight chunk and then exiting. -/
theorem C5_shutdown_amended_witness :
    (sysRun exampleParams true initState c5trace).cancelPhase = 2 ∧
    ((sysRun exampleParams true initState c5trace).running = false ∧
    (sysRun exampleParams true initState c5trace).stopped_event = true ∧
    (sysRun exampleParams true (sysRun exampleParams true initState c5trace)
        [.sinkDo true, .sinkDequeue]).running = false ∧
    (sysRun exampleParams true (sysRun exampleParams true initState c5trace)
        [.sinkDo true, .sinkDequeue]).stopped_event = true ∧
    (sysRun exampleParams true (sysRun exampleParams true initState c5trace)
        [.sinkDo true, .sinkDequeue]).cancelPhase = 2 ∧
    (sysRun exampleParams true (sysRun exampleParams true initState c5trace)
        [.sinkDo true, .sinkDequeue]).audioWrites.length
      ≤ (sysRun exampleParams true initState c5trace).audioWrites.length + 1 ∧
    ((∀ f, (sysRun exampleParams true initState c5trace).sinkPhase ≠ .processing f) →
      (sysRun exampleParams true (sysRun exampleParams true initState c5trace)
          [.sinkDo true, .sinkDequeue]).audioWrites
        = (sysRun exampleParams true initState c5trace).audioWrites)) :=
  ⟨by decide,
   C5_shutdown_amended exampleParams true c5trace [.sinkDo true, .sinkDequeue] (by decide)⟩

/-- With no `StartFrame` in the trace, one step keeps the transport
not-running with the stopped event clear, and cannot make a blocked
terminal `process_frame` call return. -/
theorem noStart_step (p : TransportParams) (allowed : Bool)
    (s : SysState) (e : Ev)
    (h1 : s.running = false) (h2 : s.stopped_event = false)
    (he : e ≠ .procFrame .start) :
    (sysStep p allowed s e).running = false ∧
    (sysStep p allowed s e).stopped_event = false ∧
    ((sysStep p allowed s e).cancelPhase = 2 → s.cancelPhase = 2) := by
  cases e with
  | procFrame f =>
      by_cases hc : s.cancelPhase = 0
      · cases f with
        | start => exact absurd rfl he
        | cancel =>
            have heq : sysStep p allowed s (.procFrame .cancel)
                = { s with pushed := s.pushed ++ [.cancel], cancelPhase := 1 } := by
              simp [sysStep, hc, procFrameStep, stopT_not_running s h1]
            rw [heq]
            refine ⟨h1, h2, ?_⟩
            intro hcp
            have hcp' : (1 : Nat) = 2 := hcp
            omega
        | endFrame =>
            have heq : sysStep p allowed s (.procFrame .endFrame)
                = { s with
                    sink_queue := s.sink_queue ++ [.endFrame]
                    cancelPhase := 1 } := by
              simp [sysStep, hc, procFrameStep]
            rw [heq]
            refine ⟨h1, h2, ?_⟩
            intro hcp
            have hcp' : (1 : Nat) = 2 := hcp
            omega
        | startInterruption =>
            by_cases hal : allowed
            · have heq : sysStep p allowed s (.procFrame .startInterruption)
                  = { s with
                      is_interrupted := true
                      pushed := s.pushed ++ [.startInterruption] } := by
                simp [sysStep, hc, procFrameStep, hal]
              rw [heq]
              exact ⟨h1, h2, fun h => h⟩
            · have heq : sysStep p allowed s (.procFrame .startInterruption)
                  = { s with pushed := s.pushed ++ [.startInterruption] } := by
                simp [sysStep, hc, procFrameStep, hal]
              rw [heq]
              exact ⟨h1, h2, fun h => h⟩
        | stopInterruption =>
            by_cases hal : allowed
            · have heq : sysStep p allowed s (.procFrame .stopInterruption)
                  = { s with
                      is_interrupted := false
                      pushed := s.pushed ++ [.stopInterruption] } := by
                simp [sysStep, hc, procFrameStep, hal]
              rw [heq]
              exact ⟨h1, h2, fun h => h⟩
            · have heq : sysStep p allowed s (.procFrame .stopInterruption)
                  = { s with pushed := s.pushed ++ [.stopInterruption] } := by
                simp [sysStep, hc, procFrameStep, hal]
              rw [heq]
              exact ⟨h1, h2, fun h => h⟩
        | system n =>
            have heq : sysStep p allowed s (.procFrame (.system n))
                = { s with pushed := s.pushed ++ [.system n] } := by
              simp [sysStep, hc, procFrameStep]
            rw [heq]
            exact ⟨h1, h2, fun h => h⟩
        | audio a =>
            have heq : sysStep p allowed s (.procFrame (.audio a))
                = { s with sink_queue := s.sink_queue
                    ++ (handle_audio p a).map Frame.audio } := by
              simp [sysStep, hc, procFrameStep]
            rw [heq]
            exact ⟨h1, h2, fun h => h⟩
        | image i =>
            have heq : sysStep p allowed s (.procFrame (.image i))
                = { s with sink_queue := s.sink_queue ++ [.image i] } := by
              simp [sysStep, hc, procFrameStep]
            rw [heq]
            exact ⟨h1, h2, fun h => h⟩
        | sprite imgs =>
            have heq : sysStep p allowed s (.procFrame (.sprite imgs))
                = { s with sink_queue := s.sink_queue ++ [.sprite imgs] } := by
              simp [sysStep, hc, procFrameStep]
            rw [heq]
            exact ⟨h1, h2, fun h => h⟩
        | transportMessage m =>
            have heq : sysStep p allowed s (.procFrame (.transportMessage m))
                = { s with sink_queue := s.sink_queue ++ [.transportMessage m] } := by
              simp [sysStep, hc, procFrameStep]
            rw [heq]
            exact ⟨h1, h2, fun h => h⟩
        | metrics m =>
            have heq : sysStep p allowed s (.procFrame (.metrics m))
                = { s with sink_queue := s.sink_queue ++ [.metrics m] } := by
              simp [sysStep, hc, procFrameStep]
            rw [heq]
            exact ⟨h1, h2, fun h => h⟩
        | text t =>
            have heq : sysStep p allowed s (.procFrame (.text t))
                = { s with sink_queue := s.sink_queue ++ [.text t] } := by
              simp [sysStep, hc, procFrameStep]
            rw [heq]
            exact ⟨h1, h2, fun h => h⟩
      · have heq : sysStep p allowed s (.procFrame f) = s := by
          simp [sysStep, hc]
        rw [heq]
        exact ⟨h1, h2, fun h => h⟩
  | sinkDequeue =>
      rcases hsp : s.sinkPhase with _ | f | _
      · have heq : sysStep p allowed s .sinkDequeue
            = { s with sinkPhase := .exited } := by
          simp [sysStep, hsp, h1]
        rw [heq]
        exact ⟨h1, h2, fun h => h⟩
      · have heq : sysStep p allowed s .sinkDequeue = s := by
          simp [sysStep, hsp]
        rw [heq]
        exact ⟨h1, h2, fun h => h⟩
      · have heq : sysStep p allowed s .sinkDequeue = s := by
          simp [sysStep, hsp]
        rw [heq]
        exact ⟨h1, h2, fun h => h⟩
  | sinkDo wOk =>
      rcases hsp : s.sinkPhase with _ | f | _
      · have heq : sysStep p allowed s (.sinkDo wOk) = s := by
          simp [sysStep, hsp]
        rw [heq]
        exact ⟨h1, h2, fun h => h⟩
      · have heq : sysStep p allowed s (.sinkDo wOk)
            = { s with
                buffer := (sink_process p s.is_interrupted wOk s.buffer f).buffer,
                audioWrites := s.audioWrites
                  ++ (sink_process p s.is_interrupted wOk s.buffer f).audioWrites,
                sinkPushed := s.sinkPushed
                  ++ (sink_process p s.is_interrupted wOk s.buffer f).pushedDownstream,
                cameraLiveQueue := s.cameraLiveQueue
                  ++ (sink_process p s.is_interrupted wOk s.buffer f).cameraLiveEnqueued,
                cameraCycle :=
                  (match (sink_process p s.is_interrupted wOk s.buffer f).cameraCycleSet with
                   | some l => some l
                   | none => s.cameraCycle),
                sinkPhase := .idle } := by
          simp only [sysStep, hsp]
          split
          · exact stopT_not_running _ h1
          · rfl
        rw [heq]
        exact ⟨h1, h2, fun h => h⟩
      · have heq : sysStep p allowed s (.sinkDo wOk) = s := by
          simp [sysStep, hsp]
        rw [heq]
        exact ⟨h1, h2, fun h => h⟩
  | awaitStopped =>
      have heq : sysStep p allowed s .awaitStopped = s := by
        simp [sysStep, h2]
      rw [heq]
      exact ⟨h1, h2, fun h => h⟩

/-- Trace version of `noStart_step`. -/
theorem noStart_run (p : TransportParams) (allowed : Bool) (evs : List Ev) :
    ∀ s : SysState, s.running = false → s.stopped_event = false →
      Ev.procFrame Frame.start ∉ evs →
      (sysRun p allowed s evs).running = false ∧
      (sysRun p allowed s evs).stopped_event = false ∧
      ((sysRun p allowed s evs).cancelPhase = 2 → s.cancelPhase = 2) := by
  induction evs with
  | nil =>
      intro s h1 h2 _
      exact ⟨h1, h2, fun h => h⟩
  | cons e evs ih =>
      intro s h1 h2 hmem
      have he : e ≠ .procFrame .start := by
        intro h
        exact hmem (h ▸ List.mem_cons_self _ _)
      obtain ⟨g1, g2, g3⟩ := noStart_step p allowed s e h1 h2 he
      obtain ⟨k1, k2, k3⟩ := ih (sysStep p allowed s e) g1 g2
        (fun h => hmem (List.mem_cons_of_mem _ h))
      exact ⟨k1, k2, fun h => g3 (k3 h)⟩

/-- C9: `stop` invoked while `_running` is false returns without setting
`_stopped_event`; consequently, in any execution in which `start` never
ran, the event is never set and a `process_frame(Cancel)` or
`process_frame(End)` call never gets past `_stopped_event.wait()`
(`cancelPhase` never reaches 2). -/
theorem C9_stop_before_start (p : TransportParams) (allowed : Bool)
    (evs : List Ev) (hns : Ev.procFrame Frame.start ∉ evs) :
    (∀ s : SysState, s.running = false → stopT s = s) ∧
    (sysRun p allowed initState evs).stopped_event = false ∧
    ¬ (sysRun p allowed initState evs).cancelPhase = 2 := by
  obtain ⟨r1, r2, r3⟩ := noStart_run p allowed evs initState rfl rfl hns
  refine ⟨fun s hs => stopT_not_running s hs, r2, ?_⟩
  intro h
  have h0 := r3 h
  have h0' : (0 : Nat) = 2 := h0
  omega

/-- Witness for C9: a `CancelFrame` before any `StartFrame`; the caller
stays blocked. -/
theorem C9_stop_before_start_witness :
    Ev.procFrame Frame.start ∉
      ([.procFrame .cancel, .awaitStopped, .sinkDequeue, .awaitStopped] : List Ev) ∧
    ((∀ s : SysState, s.running = false → stopT s = s) ∧
     (sysRun exampleParams true initState
        [.procFrame .cancel, .awaitStopped, .sinkDequeue, .awaitStopped]).stopped_event
       = false ∧
     ¬ (sysRun exampleParams true initState
        [.procFrame .cancel, .awaitStopped, .sinkDequeue, .awaitStopped]).cancelPhase = 2) :=
  ⟨by decide,
   C9_stop_before_start exampleParams true
     [.procFrame .cancel, .awaitStopped, .sinkDequeue, .awaitStopped] (by decide)⟩

/-- An item absent from both the current queue and the emitted log, with
an already-allocated id, is never emitted by any later events: fresh
enqueues use strictly larger ids, and delivery only moves queue items. -/
theorem push_avoid (allowed : Bool) (i : Nat) :
    ∀ (evs : List PushEv) (s : PushState), i ∉ s.queue → i ∉ s.emitted →
      i < s.nextId → i ∉ (pushRun allowed s evs).emitted := by
  intro evs
  induction evs with
  | nil =>
      intro s _ h2 _
      exact h2
  | cons e evs ih =>
      intro s h1 h2 h3
      have hgoal : pushRun allowed s (e :: evs)
          = pushRun allowed (pushStep allowed s e) evs := rfl
      rw [hgoal]
      cases e with
      | enqueue =>
          apply ih
          · intro hmem
            have hmem' : i ∈ s.queue ++ [s.nextId] := hmem
            rw [List.mem_append, List.mem_singleton] at hmem'
            rcases hmem' with hm | hm
            · exact h1 hm
            · omega
          · exact h2
          · show i < s.nextId + 1
            omega
      | deliver =>
          rcases hq : s.queue with _ | ⟨j, rest⟩
          · have heq : pushStep allowed s .deliver = s := by
              simp [pushStep, hq]
            rw [heq]
            exact ih s h1 h2 h3
          · have heq : pushStep allowed s .deliver
                = { s with queue := rest, emitted := s.emitted ++ [j] } := by
              simp [pushStep, hq]
            rw [heq]
            apply ih
            · intro hm
              apply h1
              rw [hq]
              exact List.mem_cons_of_mem _ hm
            · intro hm
              have hm' : i ∈ s.emitted ++ [j] := hm
              rw [List.mem_append, List.mem_singleton] at hm'
              rcases hm' with hm' | hm'
              · exact h2 hm'
              · subst hm'
                apply h1
                rw [hq]
                exact List.mem_cons_self _ _
            · exact h3
      | startInt =>
          by_cases hal : allowed
          · have heq : pushStep allowed s .startInt
                = { s with queue := [], interrupted := true } := by
              simp [pushStep, hal]
            rw [heq]
            apply ih
            · simp
            · exact h2
            · exact h3
          · have heq : pushStep allowed s .startInt = s := by
              simp [pushStep, hal]
            rw [heq]
            exact ih s h1 h2 h3
      | stopInt =>
          by_cases hal : allowed
          · have heq : pushStep allowed s .stopInt
                = { s with interrupted := false } := by
              simp [pushStep, hal]
            rw [heq]
            apply ih
            · exact h1
            · exact h2
            · exact h3
          · have heq : pushStep allowed s .stopInt = s := by
              simp [pushStep, hal]
            rw [heq]
            exact ih s h1 h2 h3

/-- `n` producer enqueues append the next `n` consecutive ids. -/
theorem push_enqueue_run (allowed : Bool) :
    ∀ (n : Nat) (s : PushState),
      pushRun allowed s (List.replicate n .enqueue)
        = { s with
            queue := s.queue ++ List.range' s.nextId n
            nextId := s.nextId + n } := by
  intro n
  induction n with
  | zero =>
      intro s
      show s = { s with queue := s.queue ++ List.range' s.nextId 0, nextId := s.nextId + 0 }
      simp
  | succ n ih =>
      intro s
      have hrep : List.replicate (n + 1) PushEv.enqueue
          = PushEv.enqueue :: List.replicate n PushEv.enqueue := rfl
      rw [hrep]
      have hgoal : pushRun allowed s (PushEv.enqueue :: List.replicate n PushEv.enqueue)
          = pushRun allowed (pushStep allowed s .enqueue)
              (List.replicate n PushEv.enqueue) := rfl
      rw [hgoal, ih]
      have hq : (s.queue ++ [s.nextId]) ++ List.range' (s.nextId + 1) n
          = s.queue ++ List.range' s.nextId (n + 1) := by
        rw [List.range'_succ s.nextId n 1, List.append_assoc]
        rfl
      show ({ s with
          queue := (s.queue ++ [s.nextId]) ++ List.range' (s.nextId + 1) n
          nextId := s.nextId + 1 + n } : PushState)
        = { s with
            queue := s.queue ++ List.range' s.nextId (n + 1)
            nextId := s.nextId + (n + 1) }
      rw [hq]
      have hn : s.nextId + 1 + n = s.nextId + (n + 1) := by omega
      rw [hn]

/-- Delivering as many times as there are queued items emits them all,
in queue (FIFO) order. -/
theorem push_deliver_all (allowed : Bool) :
    ∀ (q : List Nat) (s : PushState), s.queue = q →
      pushRun allowed s (List.replicate q.length .deliver)
        = { s with queue := [], emitted := s.emitted ++ q } := by
  intro q
  induction q with
  | nil =>
      intro s hq
      show s = { s with queue := [], emitted := s.emitted ++ [] }
      rw [List.append_nil, ← hq]
  | cons j rest ih =>
      intro s hq
      have hrep : List.replicate (j :: rest).length PushEv.deliver
          = PushEv.deliver :: List.replicate rest.length PushEv.deliver := rfl
      rw [hrep]
      have heq : pushStep allowed s .deliver
          = { s with queue := rest, emitted := s.emitted ++ [j] } := by
        simp [pushStep, hq]
      have hgoal : pushRun allowed s
            (PushEv.deliver :: List.replicate rest.length PushEv.deliver)
          = pushRun allowed (pushStep allowed s .deliver)
              (List.replicate rest.length PushEv.deliver) := rfl
      rw [hgoal, heq, ih _ rfl]
      show ({ s with queue := [], emitted := (s.emitted ++ [j]) ++ rest } : PushState)
        = { s with queue := [], emitted := s.emitted ++ j :: rest }
      rw [List.append_assoc]
      rfl

/-- Variant of `push_deliver_all` taking the delivery count as a
separate argument. -/
theorem push_deliver_all_n (allowed : Bool) (n : Nat) (q : List Nat)
    (s : PushState) (hq : s.queue = q) (hn : q.length = n) :
    pushRun allowed s (List.replicate n .deliver)
      = { s with queue := [], emitted := s.emitted ++ q } := by
  subst hn
  exact push_deliver_all allowed q s hq

/-- C1: when interruptions are allowed and a `StartInterruptionFrame` is
handled, every (frame, direction) item pending in the push queue at that
moment is never delivered downstream — the push task is cancelled and
replaced together with a brand-new queue — while items enqueued after
the replacement are all delivered, in FIFO order (shown for any `n`
enqueues followed by `n` push-task iterations). -/
theorem C1_interruption_drop (s : PushState) (i : Nat)
    (hinv : pushInv s) (hi : i ∈ s.queue) (evs : List PushEv) (n : Nat) :
    i ∉ (pushRun true (pushStep true s .startInt) evs).emitted ∧
    (pushRun true (pushStep true s .startInt)
        (List.replicate n .enqueue ++ List.replicate n .deliver)).emitted
      = s.emitted ++ List.range' s.nextId n := by
  obtain ⟨q1, q2, q3⟩ := hinv
  have heq : pushStep true s .startInt = { s with queue := [], interrupted := true } := by
    simp [pushStep]
  constructor
  · rw [heq]
    apply push_avoid
    · simp
    · exact q3 i hi
    · exact q1 i hi
  · rw [heq]
    have hsplit : pushRun true { s with queue := [], interrupted := true }
          (List.replicate n PushEv.enqueue ++ List.replicate n PushEv.deliver)
        = pushRun true (pushRun true { s with queue := [], interrupted := true }
            (List.replicate n PushEv.enqueue)) (List.replicate n PushEv.deliver) := by
      simp [pushRun, List.foldl_append]
    rw [hsplit, push_enqueue_run]
    rw [push_deliver_all_n true n (List.range' s.nextId n) _ (by simp) (by simp)]

/-- Witness for C1: two pending items (ids 0, 1) dropped by the
interruption; two fresh items (ids 2, 3) enqueued afterwards are both
delivered in order. -/
theorem C1_interruption_drop_witness :
    (pushInv pushEx ∧ 0 ∈ pushEx.queue) ∧
    (0 ∉ (pushRun true (pushStep true pushEx .startInt)
        [.enqueue, .deliver, .deliver]).emitted ∧
    (pushRun true (pushStep true pushEx .startInt)
        (List.replicate 2 .enqueue ++ List.replicate 2 .deliver)).emitted
      = pushEx.emitted ++ List.range' pushEx.nextId 2) :=
  ⟨⟨⟨by decide, by decide, by decide⟩, by decide⟩,
   C1_interruption_drop pushEx 0 ⟨by decide, by decide, by decide⟩ (by decide)
     [.enqueue, .deliver, .deliver] 2⟩
